import Mathlib

/-!
Verification of the DocsRAG hybrid retrieval and incremental indexing core.

This file shallowly embeds the Python source of the repository
(`src/vector_embedding/...`) in Lean 4 and proves or refutes the frozen
claims about it.  Machine floats that only flow through comparisons are
modelled as rationals; third-party collaborators (rank_bm25 scoring, the
faiss index, embedding / cross-encoder / LLM providers, the PDF loader)
are passed in as explicit function parameters, exactly at the boundary
where the repository code calls them.  String operations are modelled on
the ASCII fragment (`str.lower`, `str.strip`, the `[a-z0-9]+` token
pattern), which is the fragment the repository's data exercises.
-/

/-! ## Python string primitives -/

/-- The character class of the regex `[a-z0-9]+` used by `BM25Index._tokenize`
(`core/retrieval/bm25.py`). -/
def isLowerAlnum (c : Char) : Bool :=
  ('a' ≤ c && c ≤ 'z') || ('0' ≤ c && c ≤ '9')

/-- Python `str.lower()` on the ASCII fragment. -/
def pyLower (s : String) : String :=
  String.mk (s.data.map Char.toLower)

/-- The whitespace characters stripped by Python `str.strip()`
(space, tab, newline, carriage return, vertical tab, form feed). -/
def isPyWhitespace (c : Char) : Bool :=
  c = ' ' || c = '\t' || c = '\n' || c = '\r' ||
  c = Char.ofNat 11 || c = Char.ofNat 12

/-- Python `str.strip()`: remove leading and trailing whitespace. -/
def pyStrip (s : String) : String :=
  String.mk (((s.data.dropWhile isPyWhitespace).reverse.dropWhile isPyWhitespace).reverse)

/-- Maximal runs of `[a-z0-9]` characters, i.e. `re.findall(r"[a-z0-9]+", text)`
applied to an already lowercased text.  The accumulator holds the current run
reversed. -/
def alnumRuns : List Char → List Char → List (List Char)
  | [], acc => if acc.isEmpty then [] else [acc.reverse]
  | c :: cs, acc =>
    if isLowerAlnum c then alnumRuns cs (c :: acc)
    else if acc.isEmpty then alnumRuns cs []
    else acc.reverse :: alnumRuns cs []

/-- The fixed stopword set of `core/retrieval/bm25.py` and `modules/bm25.py`. -/
def STOPWORDS : List String :=
  ["the", "is", "a", "an", "and", "or", "to", "of", "in", "on", "for", "with",
   "by", "as", "at", "from", "that", "this", "it", "be", "are", "was", "were",
   "will", "can", "into", "over"]

/-- `BM25Index._tokenize` applied to one text: lowercase, extract `[a-z0-9]+`
tokens, keep a token when it is not a stopword and has length at least 3
(`core/retrieval/bm25.py`, lines 47-57). -/
def pyTokenize (text : String) : List String :=
  ((alnumRuns (pyLower text).data []).map (fun cs => String.mk cs)).filter
    (fun token => ¬ token ∈ STOPWORDS ∧ 3 ≤ token.length)

/-! ## Python `heapq` on tuples `(-score, index)`

`BM25Index.search` pushes `(-score, i)` tuples into a `heapq` min-heap.
The heap is modelled as the list that backs Python's array, and
`heappush` / `heappushpop` follow CPython's `heapq` sift routines verbatim.
Both sift loops use fuel that their strictly monotone positions can never
exhaust (towards the root: fuel `pos + 1`; towards the leaves: fuel
`heap.length`), keeping every definition kernel-reducible. -/

/-- Python `<` on `(-score, index)` tuples: lexicographic. -/
def pyTupleLt (a b : ℚ × ℕ) : Bool :=
  if a.1 < b.1 then true else if a.1 = b.1 then decide (a.2 < b.2) else false

/-- Read `heap[i]`; positions are always in bounds in the modelled code. -/
def heapGet (heap : List (ℚ × ℕ)) (i : ℕ) : ℚ × ℕ :=
  heap.getD i (0, 0)

/-- The loop of CPython `heapq._siftdown(heap, startpos, pos)` with
`newitem = heap[pos]` passed explicitly: bubble `newitem` up towards the
root.  The position strictly decreases on every iteration, so fuel
`pos + 1` is never exhausted; fuel keeps the definition reducible by the
kernel. -/
def siftdownLoop (newitem : ℚ × ℕ) (startpos : ℕ) :
    ℕ → ℕ → List (ℚ × ℕ) → List (ℚ × ℕ)
  | 0, pos, heap => heap.set pos newitem
  | fuel + 1, pos, heap =>
    if startpos < pos then
      let parentpos := (pos - 1) / 2
      let parent := heapGet heap parentpos
      if pyTupleLt newitem parent then
        siftdownLoop newitem startpos fuel parentpos (heap.set pos parent)
      else
        heap.set pos newitem
    else
      heap.set pos newitem

/-- CPython `heapq._siftdown(heap, startpos, pos)`. -/
def siftdown (newitem : ℚ × ℕ) (startpos : ℕ) (pos : ℕ) (heap : List (ℚ × ℕ)) :
    List (ℚ × ℕ) :=
  siftdownLoop newitem startpos (pos + 1) pos heap

/-- The loop of CPython `heapq._siftup`: move the smaller child up until a
leaf is reached, returning the updated heap and the final position.  The fuel
starts at `heap.length` and the position strictly increases, so the fuel is
never exhausted on positions inside the heap. -/
def siftupLoop (fuel : ℕ) (pos : ℕ) (heap : List (ℚ × ℕ)) :
    List (ℚ × ℕ) × ℕ :=
  match fuel with
  | 0 => (heap, pos)
  | fuel + 1 =>
    let endpos := heap.length
    let childpos := 2 * pos + 1
    if childpos < endpos then
      let rightpos := childpos + 1
      let childpos :=
        if rightpos < endpos ∧
            ¬ pyTupleLt (heapGet heap childpos) (heapGet heap rightpos) then
          rightpos
        else childpos
      siftupLoop fuel childpos (heap.set pos (heapGet heap childpos))
    else (heap, pos)

/-- CPython `heapq._siftup(heap, pos)`. -/
def siftup (pos : ℕ) (heap : List (ℚ × ℕ)) : List (ℚ × ℕ) :=
  let newitem := heapGet heap pos
  let moved := siftupLoop heap.length pos heap
  siftdown newitem pos moved.2 (moved.1.set moved.2 newitem)

/-- CPython `heapq.heappush`. -/
def heappush (heap : List (ℚ × ℕ)) (item : ℚ × ℕ) : List (ℚ × ℕ) :=
  let h := heap ++ [item]
  siftdown item 0 (h.length - 1) h

/-- CPython `heapq.heappushpop` (only the resulting heap matters to the
caller in `BM25Index.search`; the returned item is discarded there). -/
def heappushpop (heap : List (ℚ × ℕ)) (item : ℚ × ℕ) : List (ℚ × ℕ) :=
  if heap ≠ [] ∧ pyTupleLt (heapGet heap 0) item then
    siftup 0 (heap.set 0 item)
  else heap

/-! ## `BM25Index.search` (`core/retrieval/bm25.py`, lines 60-70)

`BM25Okapi.get_scores` is the external `rank_bm25` collaborator; it is passed
in as `getScores`, applied to the tokenized query exactly as in the source.
The heap loop and the final list comprehension are modelled verbatim. -/

/-- `BM25Index.search`: tokenize the query, score, select with a `heapq` heap
bounded by `bm25TopK`, and return `(index, score, text)` triples read off the
heap's backing array. -/
def bm25Search (texts : List String) (getScores : List String → List ℚ)
    (bm25TopK : ℕ) (query : String) : List (ℕ × ℚ × String) :=
  let tokenizedQuery := pyTokenize query
  let scores := getScores tokenizedQuery
  let maxHeap := scores.enum.foldl
    (fun heap p =>
      if heap.length < bm25TopK then heappush heap (-p.2, p.1)
      else heappushpop heap (-p.2, p.1))
    []
  maxHeap.map (fun si => (si.2, -si.1, texts.getD si.2 ""))

/-! ## Claim C1 -/

/-- C1 (code bug): for the query scores `[1, 2, 3]` and `bm25TopK = 2`,
`BM25Index.search` returns documents 0 and 1 — the two LOWEST-scoring
documents — and omits document 2, the unique highest-scoring one.  The
`heapq` idiom is inverted: the code pushes `(-score, i)`, so `heappushpop`
(which evicts the minimum, i.e. the most negative `-score`) evicts the
current best document on every step and the heap retains the `K`
lowest-scoring documents, contradicting the claim (and the code's own
comment "Search for top k results"). -/
theorem C1_bm25_search_keeps_lowest_scores :
    bm25Search ["d0", "d1", "d2"] (fun _ => [1, 2, 3]) 2 "q"
        = [(1, 2, "d1"), (0, 1, "d0")] ∧
    (2 : ℕ) ∉ (bm25Search ["d0", "d1", "d2"] (fun _ => [1, 2, 3]) 2 "q").map
        (fun r => r.1) := by
  constructor
  · decide
  · decide

/-! ## Candidates and the merge step (`pipeline/rag.py`, lines 96-141)

A candidate is the result dict flowing through `RAGPipeline.ask`: text,
chunk metadata, a `source` tag (`"bm25"`, `"vector"` or `"hybrid"`), and
the optional score fields the code attaches (`bm25_score`, `distance`,
`vector_distance`, `rerank_score`). -/

/-- The chunk metadata fields `RAGPipeline.ask` reads. -/
structure ChunkMeta where
  page : ℕ
  path : String
  category : String
  filename : String
deriving Repr, DecidableEq

structure Candidate where
  text : String
  metadata : ChunkMeta
  source : String
  bm25Score : Option ℚ := none
  distance : Option ℚ := none
  vectorDistance : Option ℚ := none
  rerankScore : Option ℚ := none
deriving Repr, DecidableEq

/-- The dedup key `candidate["text"].strip().lower()`. -/
def textKey (s : String) : String :=
  pyLower (pyStrip s)

/-- State of the merge loops: the `mergedCandidates` list, the `seenTexts`
set (kept as the list of keys in insertion order) and the keys of
`textToCandidate` (which only ever receives BM25 candidates, line 124). -/
structure MergeState where
  merged : List Candidate
  seen : List String
  bm25Keys : List String
deriving Repr, DecidableEq

/-- One iteration of the "Add BM25 results first" loop (lines 120-125). -/
def mergeBm25Step (st : MergeState) (c : Candidate) : MergeState :=
  let key := textKey c.text
  if key ∈ st.seen then st
  else
    { merged := st.merged ++ [c]
      seen := st.seen ++ [key]
      bm25Keys := st.bm25Keys ++ [key] }

/-- Replace the first list entry satisfying `p` by its image under `f`.
Python mutates the dict object found in `textToCandidate`, which is the
unique entry of `mergedCandidates` carrying that key; rewriting the first
(hence only) entry with the key is the functional equivalent. -/
def updateFirst (p : Candidate → Bool) (f : Candidate → Candidate) :
    List Candidate → List Candidate
  | [] => []
  | c :: cs => if p c then f c :: cs else c :: updateFirst p f cs

/-- One iteration of the "Add vector results" loop (lines 128-140): an
unseen key is appended; a key already seen is not appended, and only when
the key belongs to `textToCandidate` (i.e. to a BM25 candidate) is that
candidate marked `"hybrid"` and given the vector `distance`. -/
def mergeVectorStep (st : MergeState) (c : Candidate) : MergeState :=
  let key := textKey c.text
  if key ∈ st.seen then
    if key ∈ st.bm25Keys then
      { st with
          merged := updateFirst (fun m => textKey m.text == key)
            (fun m =>
              { m with
                  source := "hybrid"
                  vectorDistance :=
                    match c.distance with
                    | some d => some d
                    | none => m.vectorDistance })
            st.merged }
    else st
  else
    { st with merged := st.merged ++ [c], seen := st.seen ++ [key] }

/-- The merge step of `RAGPipeline.ask` (lines 114-141): BM25 candidates
first, then vector candidates, deduplicated by `textKey`. -/
def mergeCandidates (bm25C vecC : List Candidate) : List Candidate :=
  (vecC.foldl mergeVectorStep (bm25C.foldl mergeBm25Step ⟨[], [], []⟩)).merged

/-! ## Claim C2 -/

/-- Invariant of the merge loops: `seenTexts` is exactly the list of dedup
keys of `mergedCandidates`, without duplicates. -/
def MergeInv (st : MergeState) : Prop :=
  st.seen = st.merged.map (fun c => textKey c.text) ∧ st.seen.Nodup

theorem updateFirst_map_textKey (p : Candidate → Bool) (f : Candidate → Candidate)
    (hf : ∀ c, (f c).text = c.text) :
    ∀ l : List Candidate,
      (updateFirst p f l).map (fun c => textKey c.text)
        = l.map (fun c => textKey c.text) := by
  intro l
  induction l with
  | nil => rfl
  | cons c cs ih =>
    by_cases h : p c
    · simp only [updateFirst, h, if_true, List.map_cons, hf, ih]
    · simp only [updateFirst, h, if_false, Bool.false_eq_true, List.map_cons, ih]

theorem mergeBm25Step_inv (st : MergeState) (c : Candidate)
    (h : MergeInv st) : MergeInv (mergeBm25Step st c) := by
  obtain ⟨h1, h2⟩ := h
  unfold mergeBm25Step
  by_cases hk : textKey c.text ∈ st.seen
  · rw [if_pos hk]; exact ⟨h1, h2⟩
  · rw [if_neg hk]
    refine ⟨?_, ?_⟩
    · show st.seen ++ [textKey c.text] = _
      simp [h1]
    · exact h2.append (List.nodup_singleton _) (List.disjoint_singleton.2 hk)

theorem mergeVectorStep_inv (st : MergeState) (c : Candidate)
    (h : MergeInv st) : MergeInv (mergeVectorStep st c) := by
  obtain ⟨h1, h2⟩ := h
  unfold mergeVectorStep
  by_cases hk : textKey c.text ∈ st.seen
  · rw [if_pos hk]
    by_cases hb : textKey c.text ∈ st.bm25Keys
    · rw [if_pos hb]
      refine ⟨?_, h2⟩
      have hu := updateFirst_map_textKey
        (fun m => textKey m.text == textKey c.text)
        (fun m =>
          { m with
              source := "hybrid"
              vectorDistance :=
                match c.distance with
                | some d => some d
                | none => m.vectorDistance })
        (fun m => rfl) st.merged
      dsimp only
      rw [hu, ← h1]
    · rw [if_neg hb]; exact ⟨h1, h2⟩
  · rw [if_neg hk]
    refine ⟨?_, ?_⟩
    · show st.seen ++ [textKey c.text] = _
      simp [h1]
    · exact h2.append (List.nodup_singleton _) (List.disjoint_singleton.2 hk)

theorem mergeFoldl_bm25_inv (l : List Candidate) :
    ∀ st : MergeState, MergeInv st → MergeInv (l.foldl mergeBm25Step st) := by
  induction l with
  | nil => intro st h; exact h
  | cons c cs ih => intro st h; exact ih _ (mergeBm25Step_inv st c h)

theorem mergeFoldl_vec_inv (l : List Candidate) :
    ∀ st : MergeState, MergeInv st → MergeInv (l.foldl mergeVectorStep st) := by
  induction l with
  | nil => intro st h; exact h
  | cons c cs ih => intro st h; exact ih _ (mergeVectorStep_inv st c h)

/-- Concrete candidates used by the C2 theorems: two lexical candidates
`A`, `B` and vector candidates `B`, `C` (`B` textually identical). -/
def mergeExMetaL : ChunkMeta := ⟨1, "doc.pdf", "misc_docs", "doc.pdf"⟩

def mergeExMetaV : ChunkMeta := ⟨2, "doc.pdf", "misc_docs", "doc.pdf"⟩

def mergeExA : Candidate :=
  { text := "A", metadata := mergeExMetaL, source := "bm25", bm25Score := some 3 }

def mergeExB : Candidate :=
  { text := "B", metadata := mergeExMetaL, source := "bm25", bm25Score := some 2 }

def mergeExVB : Candidate :=
  { text := "B", metadata := mergeExMetaV, source := "vector", distance := some 5 }

def mergeExVC : Candidate :=
  { text := "C", metadata := mergeExMetaV, source := "vector", distance := some 2 }

/-- C2 counterexample: two vector candidates with the same dedup key and no
lexical candidate.  The second one is (correctly) not appended, but — against
the claim — the existing entry's source stays `"vector"` (never set to
`"hybrid"`) and the duplicate's vector distance (7) is not attached, because
`textToCandidate` only indexes BM25 candidates. -/
theorem C2_counterexample_vector_vector_duplicate :
    mergeCandidates [] [mergeExVB, { mergeExVB with distance := some 7 }]
      = [mergeExVB] ∧
    mergeExVB.source = "vector" ∧ mergeExVB.vectorDistance = none := by
  refine ⟨by decide, rfl, rfl⟩

/-- C2 amended: the merge starts from the lexical candidates in order; a
vector candidate whose dedup key matches an already-merged LEXICAL candidate
is not appended and that candidate is marked `"hybrid"` with the vector
distance attached; a vector candidate matching an already-merged VECTOR
candidate is dropped without modifying the existing entry; after merging no
two candidates share a dedup key.  On lexical `{A, B}` and vector `{B, C}`
with `B` textually identical, the result is exactly 3 candidates with `B`
tagged hybrid, carrying both its BM25 score and the vector distance. -/
theorem C2_merge_dedup_amended :
    (∀ bm25C vecC : List Candidate,
        ((mergeCandidates bm25C vecC).map (fun c => textKey c.text)).Nodup) ∧
    mergeCandidates [mergeExA, mergeExB] [mergeExVB, mergeExVC]
      = [mergeExA,
         { mergeExB with source := "hybrid", vectorDistance := some 5 },
         mergeExVC] ∧
    mergeCandidates [] [mergeExVC, { mergeExVC with distance := some 9 }]
      = [mergeExVC] := by
  refine ⟨?_, by decide, by decide⟩
  intro bm25C vecC
  have h := mergeFoldl_vec_inv vecC _
    (mergeFoldl_bm25_inv bm25C ⟨[], [], []⟩ ⟨rfl, List.nodup_nil⟩)
  obtain ⟨h1, h2⟩ := h
  unfold mergeCandidates
  rw [← h1]
  exact h2

/-! ## Conversation memory (`pipeline/rag.py`, lines 187-195)

`add_to_conversation_history` appends the turn and pops the oldest entry
when the length exceeds `config.conversation.maxHistory`. -/

/-- One conversation turn, as stored by `add_to_conversation_history`
(the `content` strings of the `user` / `assistant` message dicts). -/
structure Turn where
  user : String
  assistant : String
deriving Repr, DecidableEq

/-- `RAGPipeline.add_to_conversation_history`: append, then `pop(0)` once
when the length exceeds `maxHistory`. -/
def addToHistory (maxHistory : ℕ) (history : List Turn) (turn : Turn) :
    List Turn :=
  let h := history ++ [turn]
  if maxHistory < h.length then h.drop 1 else h

/-- The `n` most recent elements of a list, oldest first. -/
def lastN (n : ℕ) (xs : List α) : List α :=
  xs.drop (xs.length - n)

/-! ## Claim C9 -/

theorem lastN_length_le (n : ℕ) (xs : List α) : (lastN n xs).length ≤ n := by
  simp [lastN]
  omega

theorem lastN_nil (n : ℕ) : lastN n ([] : List α) = [] := by
  simp [lastN]

theorem lastN_append_lastN (n : ℕ) (A B : List α) :
    lastN n (lastN n A ++ B) = lastN n (A ++ B) := by
  unfold lastN
  rw [List.drop_append_eq_append_drop, List.drop_append_eq_append_drop,
    List.drop_drop]
  congr 1
  · congr 1
    simp
    omega
  · congr 1
    simp
    omega

theorem addToHistory_lastN (n : ℕ) (h : List Turn) (t : Turn)
    (hlen : h.length ≤ n) :
    addToHistory n h t = lastN n (h ++ [t]) := by
  unfold addToHistory lastN
  by_cases hc : n < (h ++ [t]).length
  · rw [if_pos hc]
    have h1 : (h ++ [t]).length - n = 1 := by
      simp at hc ⊢
      omega
    rw [h1]
  · rw [if_neg hc]
    have h1 : (h ++ [t]).length - n = 0 := by
      simp at hc ⊢
      omega
    rw [h1, List.drop_zero]

theorem foldl_addToHistory_lastN (n : ℕ) (ts : List Turn) :
    ∀ A : List Turn,
      ts.foldl (addToHistory n) (lastN n A) = lastN n (A ++ ts) := by
  induction ts with
  | nil => intro A; simp
  | cons t ts ih =>
    intro A
    rw [List.foldl_cons,
      addToHistory_lastN n (lastN n A) t (lastN_length_le n A),
      lastN_append_lastN, ih (A ++ [t]), List.append_assoc,
      List.singleton_append]

/-- C9 (confirmed): starting from the empty history, after any sequence of
successful query cycles the conversation history has length at most
`maxHistory`, and it equals exactly the most recent `maxHistory` turns, in
order — i.e. `pop(0)` evicts oldest-first (FIFO).  This holds for every
prefix of the sequence since the statement quantifies over all turn lists. -/
theorem C9_conversation_history_bound (maxHistory : ℕ) (turns : List Turn) :
    (turns.foldl (addToHistory maxHistory) []).length ≤ maxHistory ∧
    turns.foldl (addToHistory maxHistory) [] = lastN maxHistory turns := by
  have h0 : ([] : List Turn) = lastN maxHistory [] := (lastN_nil _).symm
  constructor
  · rw [h0, foldl_addToHistory_lastN, List.nil_append]
    exact lastN_length_le _ _
  · rw [h0, foldl_addToHistory_lastN, List.nil_append]

/-! ## `VectorDB` (`core/retrieval/vectordb.py`)

The faiss `IndexHNSWFlat` is an external collaborator: the model keeps its
row count (`ntotal`, incremented by `index.add`) and receives the output of
`index.search` as explicit `(indices, distances)` arguments.  `texts` and
`metadata` are the two parallel Python lists.  Entries are `Option`-valued
because the 1-D `add` path stores `None` for falsy arguments. -/

structure VectorDB where
  ntotal : ℕ
  texts : List (Option String)
  metadata : List (Option ChunkMeta)
deriving Repr, DecidableEq

def VectorDB.emptyDb : VectorDB := ⟨0, [], []⟩

/-- `VectorDB.add` on a 2-D vector array (lines 18-26): `index.add` grows
the faiss index by one row per vector, and the `texts` / `metadata`
arguments are extended as given. -/
def VectorDB.addBatch (db : VectorDB) (vectors : List (List ℚ))
    (txts : List (Option String)) (mds : List (Option ChunkMeta)) : VectorDB :=
  ⟨db.ntotal + vectors.length, db.texts ++ txts, db.metadata ++ mds⟩

/-- `VectorDB.add` on a 1-D vector (lines 14-17): the vector is reshaped to
one row and the scalar arguments become one-element lists, with falsy values
(`None`, the empty string) replaced by `[None]`. -/
def VectorDB.addSingle (db : VectorDB) (vector : List ℚ)
    (txt : Option String) (md : Option ChunkMeta) : VectorDB :=
  let txts : List (Option String) :=
    match txt with
    | some s => if s = "" then [none] else [some s]
    | none => [none]
  let mds : List (Option ChunkMeta) :=
    match md with
    | some m => [some m]
    | none => [none]
  ⟨db.ntotal + 1, db.texts ++ txts, db.metadata ++ mds⟩

/-- One call to `VectorDB.add`, dispatched on the argument shape exactly as
the `len(vectors.shape)` test does. -/
inductive AddOp where
  | batch (vectors : List (List ℚ)) (txts : List (Option String))
      (mds : List (Option ChunkMeta))
  | single (vector : List ℚ) (txt : Option String) (md : Option ChunkMeta)

/-- A call inserting `M` rows passes `M` vectors, `M` texts and `M`
metadata entries (the 1-D path always passes exactly one of each). -/
def AddOp.wf : AddOp → Prop
  | .batch v t m => v.length = t.length ∧ v.length = m.length
  | .single _ _ _ => True

/-- Number of rows a call inserts. -/
def AddOp.rows : AddOp → ℕ
  | .batch v _ _ => v.length
  | .single _ _ _ => 1

def applyAddOp (db : VectorDB) : AddOp → VectorDB
  | .batch v t m => db.addBatch v t m
  | .single v t m => db.addSingle v t m

/-- The row invariant of the spec: faiss vector count, text-array length and
metadata-array length agree. -/
def VectorDB.consistent (db : VectorDB) : Prop :=
  db.ntotal = db.texts.length ∧ db.ntotal = db.metadata.length

/-- `RAGPipeline.from_cache` (`pipeline/rag.py`, lines 54-88): rebuild the
vector index from the cached chunk list and embedding matrix by one batch
`add` of the embeddings with `texts = [chunk["text"] ...]` and
`metadataList = [chunk["metadata"] ...]`. -/
def fromCacheDb (chunkTexts : List String) (chunkMetas : List ChunkMeta)
    (embeddings : List (List ℚ)) : VectorDB :=
  VectorDB.emptyDb.addBatch embeddings
    (chunkTexts.map (fun t => some t)) (chunkMetas.map (fun m => some m))

/-! ## Claim C3 -/

theorem applyAddOp_counts (db : VectorDB) (op : AddOp) (hwf : op.wf) :
    (applyAddOp db op).ntotal = db.ntotal + op.rows ∧
    (applyAddOp db op).texts.length = db.texts.length + op.rows ∧
    (applyAddOp db op).metadata.length = db.metadata.length + op.rows := by
  cases op with
  | batch v t m =>
    obtain ⟨h1, h2⟩ := hwf
    refine ⟨?_, ?_, ?_⟩ <;> simp [applyAddOp, VectorDB.addBatch, AddOp.rows] <;>
      omega
  | single v t m =>
    refine ⟨rfl, ?_, ?_⟩ <;>
      simp [applyAddOp, VectorDB.addSingle, AddOp.rows] <;>
      cases t <;> cases m <;> simp <;> split <;> simp

theorem applyAddOp_consistent (db : VectorDB) (op : AddOp)
    (hdb : db.consistent) (hwf : op.wf) : (applyAddOp db op).consistent := by
  obtain ⟨h1, h2, h3⟩ := applyAddOp_counts db op hwf
  obtain ⟨hc1, hc2⟩ := hdb
  exact ⟨by omega, by omega⟩

theorem foldl_addOps_consistent (ops : List AddOp) :
    ∀ db : VectorDB, db.consistent → (∀ op ∈ ops, op.wf) →
      (ops.foldl applyAddOp db).consistent := by
  induction ops with
  | nil => intro db h _; exact h
  | cons op ops ih =>
    intro db h hwf
    exact ih _ (applyAddOp_consistent db op h (hwf op (by simp)))
      (fun o ho => hwf o (by simp [ho]))

/-- C3 (confirmed): (i) a single `add` inserting `M` rows (with `M` texts
and `M` metadata entries, as every caller passes) increases vector count,
text-array length and metadata-array length by exactly `M` and preserves
their equality; (ii) the equality holds at all times, i.e. after every
sequence of well-formed `add` calls starting from a consistent index; and
(iii) `from_cache` repopulates vectors, texts and metadata in lockstep, so a
pipeline rebuilt from a snapshot with as many embeddings as chunks satisfies
the same equality. -/
theorem C3_vectordb_row_invariant :
    (∀ (db : VectorDB) (op : AddOp), op.wf →
      (applyAddOp db op).ntotal = db.ntotal + op.rows ∧
      (applyAddOp db op).texts.length = db.texts.length + op.rows ∧
      (applyAddOp db op).metadata.length = db.metadata.length + op.rows) ∧
    (∀ (db : VectorDB) (ops : List AddOp), db.consistent →
      (∀ op ∈ ops, op.wf) → (ops.foldl applyAddOp db).consistent) ∧
    (∀ (chunkTexts : List String) (chunkMetas : List ChunkMeta)
        (embeddings : List (List ℚ)),
      embeddings.length = chunkTexts.length →
      embeddings.length = chunkMetas.length →
      (fromCacheDb chunkTexts chunkMetas embeddings).consistent ∧
      (fromCacheDb chunkTexts chunkMetas embeddings).ntotal
        = embeddings.length) := by
  refine ⟨fun db op hwf => applyAddOp_counts db op hwf,
    fun db ops h hwf => foldl_addOps_consistent ops db h hwf,
    fun ct cm e h1 h2 => ⟨⟨?_, ?_⟩, ?_⟩⟩ <;>
    simp [fromCacheDb, VectorDB.addBatch, VectorDB.emptyDb] <;> omega

/-- C3 witness: a concrete consistent run — two batch inserts of sizes 2 and
1 on the empty index, and a `from_cache` rebuild with 2 chunks and 2
embeddings. -/
theorem C3_vectordb_row_invariant_witness :
    ((([AddOp.batch [[1], [2]] [some "a", some "b"] [none, none],
        AddOp.single [3] (some "c") none] : List AddOp).foldl
        applyAddOp VectorDB.emptyDb).consistent) ∧
    (fromCacheDb ["a", "b"] [⟨1, "p", "c", "f"⟩, ⟨2, "p", "c", "f"⟩]
        [[1], [2]]).consistent := by
  constructor
  · exact C3_vectordb_row_invariant.2.1 VectorDB.emptyDb _ ⟨rfl, rfl⟩
      (by intro op hop; fin_cases hop
          · exact ⟨rfl, rfl⟩
          · trivial)
  · exact (C3_vectordb_row_invariant.2.2 _ _ _ rfl rfl).1

/-! ## `VectorDB.search` (`core/retrieval/vectordb.py`, lines 29-41)

`index.search(vec, k)` is the faiss collaborator; its output row
(`indices[0]`, `distances[0]`) is passed in explicitly.  faiss pads the
output with index `-1` (and a sentinel distance) when fewer than `k`
neighbors exist.  The Python loop resolves each reported index through
plain list indexing, where negative indices count from the end. -/
def pyListGet (xs : List α) (i : Int) : Option α :=
  if 0 ≤ i then xs.get? i.toNat
  else if 0 ≤ (xs.length : Int) + i then xs.get? ((xs.length : Int) + i).toNat
  else none

def vdbSearchLoop (texts : List α) (metadata : List β) :
    List Int → List ℚ → Option (List (α × β × ℚ))
  | [], _ => some []
  | ix :: rest, ds =>
    match pyListGet texts ix, pyListGet metadata ix, ds.head? with
    | some t, some m, some d =>
      match vdbSearchLoop texts metadata rest ds.tail with
      | some tail => some ((t, m, d) :: tail)
      | none => none
    | _, _, _ => none

theorem pyListGet_nonneg (xs : List α) (i : Int) (h : 0 ≤ i) :
    pyListGet xs i = xs.get? i.toNat := by
  simp [pyListGet, h]

theorem pyListGet_neg_one (xs : List α) (h : 1 ≤ xs.length) :
    pyListGet xs (-1) = xs.get? (xs.length - 1) := by
  have h0 : ¬ (0 : Int) ≤ -1 := by omega
  have h1 : (0 : Int) ≤ (xs.length : Int) + -1 := by omega
  have h2 : ((xs.length : Int) + -1).toNat = xs.length - 1 := by omega
  simp only [pyListGet, h0, if_false, h1, if_true, h2]

theorem pyListGet_total (xs : List α) (R : ℕ) (hx : xs.length = R) (hR : 1 ≤ R)
    (ix : Int) (hrange : ix = -1 ∨ (0 ≤ ix ∧ ix < (R : Int))) :
    ∃ t, pyListGet xs ix = some t ∧
      (0 ≤ ix → xs.get? ix.toNat = some t) ∧
      (ix = -1 → xs.get? (R - 1) = some t) := by
  subst hx
  rcases hrange with h1 | ⟨h1, h2⟩
  · subst h1
    have hlt : xs.length - 1 < xs.length := by omega
    exact ⟨xs.get ⟨xs.length - 1, hlt⟩,
      by rw [pyListGet_neg_one xs (by omega)]; exact List.get?_eq_get hlt,
      fun h0 => by omega, fun _ => List.get?_eq_get hlt⟩
  · have hlt : ix.toNat < xs.length := by omega
    exact ⟨xs.get ⟨ix.toNat, hlt⟩,
      by rw [pyListGet_nonneg xs ix h1]; exact List.get?_eq_get hlt,
      fun _ => List.get?_eq_get hlt, fun h0 => by omega⟩

theorem vdbSearchLoop_spec (texts : List α) (metadata : List β) (R : ℕ)
    (ht : texts.length = R) (hm : metadata.length = R) (hR : 1 ≤ R) :
    ∀ (indices : List Int) (distances : List ℚ),
      indices.length = distances.length →
      (∀ ix ∈ indices, ix = -1 ∨ (0 ≤ ix ∧ ix < (R : Int))) →
      ∃ results,
        vdbSearchLoop texts metadata indices distances = some results ∧
        results.length = indices.length ∧
        (∀ j ix, indices.get? j = some ix →
          ∃ r, results.get? j = some r ∧
            ((0 ≤ ix → some r.1 = texts.get? ix.toNat ∧
                some r.2.1 = metadata.get? ix.toNat) ∧
             (ix = -1 → some r.1 = texts.get? (R - 1) ∧
                some r.2.1 = metadata.get? (R - 1)))) := by
  intro indices
  induction indices with
  | nil =>
    intro ds _ _
    exact ⟨[], rfl, rfl, fun j ix h => by simp at h⟩
  | cons ix rest ih =>
    intro ds hlen hrange
    match ds with
    | [] => simp at hlen
    | d :: ds =>
      have hixr := hrange ix (by simp)
      obtain ⟨t, htg, htn, htm1⟩ := pyListGet_total texts R ht hR ix hixr
      obtain ⟨m, hmg, hmn, hmm1⟩ := pyListGet_total metadata R hm hR ix hixr
      obtain ⟨tail, htail, hlen2, hspec⟩ := ih ds (by simpa using hlen)
        (fun i hi => hrange i (by simp [hi]))
      refine ⟨(t, m, d) :: tail, ?_, by simp [hlen2], ?_⟩
      · simp [vdbSearchLoop, htg, hmg, htail]
      · intro j ix' hj
        cases j with
        | zero =>
          rw [List.get?_cons_zero, Option.some_inj] at hj
          subst hj
          exact ⟨(t, m, d), rfl,
            fun h0 => ⟨(htn h0).symm, (hmn h0).symm⟩,
            fun h1 => ⟨(htm1 h1).symm, (hmm1 h1).symm⟩⟩
        | succ j =>
          rw [List.get?_cons_succ] at hj
          obtain ⟨r, hr, hc⟩ := hspec j ix' hj
          exact ⟨r, by rw [List.get?_cons_succ]; exact hr, hc⟩

/-- `VectorDB.search` given the faiss output for the query. -/
def VectorDB.search (db : VectorDB) (indices : List Int) (distances : List ℚ) :
    Option (List (Option String × Option ChunkMeta × ℚ)) :=
  vdbSearchLoop db.texts db.metadata indices distances

/-! ## Claim C10 -/

/-- C10 (confirmed): for a consistent `VectorDB` with `R ≥ 1` rows and any
faiss output of `k` indices each of which is either a valid row or the `-1`
placeholder (which is how faiss reports missing neighbors when `k > R`),
`search` returns exactly `k` entries; every `-1` position resolves through
Python negative indexing to the LAST inserted row's text and metadata (so
that row can appear duplicated when `k > R`), and every non-negative
reported index `ix` resolves to the valid distinct row `ix < R`, which under
the precondition `k ≤ R` (faiss then reports `k` distinct valid indices) is
a distinct valid row per returned entry. -/
theorem C10_search_negative_index_saturation (db : VectorDB) (R k : ℕ)
    (hcons : db.consistent) (hR : db.ntotal = R) (hR1 : 1 ≤ R)
    (indices : List Int) (distances : List ℚ)
    (hlen : indices.length = k) (hd : distances.length = k)
    (hrange : ∀ ix ∈ indices, ix = -1 ∨ (0 ≤ ix ∧ ix < (R : Int))) :
    ∃ results, db.search indices distances = some results ∧
      results.length = k ∧
      (∀ j, indices.get? j = some (-1) →
        ∃ r, results.get? j = some r ∧
          some r.1 = db.texts.get? (R - 1) ∧
          some r.2.1 = db.metadata.get? (R - 1)) ∧
      (∀ j ix, indices.get? j = some ix → 0 ≤ ix →
        ∃ r, results.get? j = some r ∧ ix.toNat < R ∧
          some r.1 = db.texts.get? ix.toNat ∧
          some r.2.1 = db.metadata.get? ix.toNat) := by
  obtain ⟨hc1, hc2⟩ := hcons
  obtain ⟨results, hres, hlen2, hspec⟩ :=
    vdbSearchLoop_spec db.texts db.metadata R (by omega) (by omega) hR1
      indices distances (by omega) hrange
  refine ⟨results, hres, by omega, ?_, ?_⟩
  · intro j hj
    obtain ⟨r, hr, _, hneg⟩ := hspec j (-1) hj
    exact ⟨r, hr, hneg rfl⟩
  · intro j ix hj hix
    obtain ⟨r, hr, hpos, _⟩ := hspec j ix hj
    have hmem := List.get?_mem hj
    have hlt : ix.toNat < R := by
      rcases hrange ix hmem with h1 | ⟨h1, h2⟩
      · omega
      · omega
    exact ⟨r, hr, hlt, hpos hix⟩

/-- C10 witness: a 2-row index queried with `k = 3`; faiss pads with `-1`
and the third returned entry duplicates row 1, the last inserted row. -/
theorem C10_search_negative_index_saturation_witness :
    ∃ results,
      (VectorDB.search
        ⟨2, [some "t0", some "t1"],
            [some ⟨1, "p", "c", "f"⟩, some ⟨2, "p", "c", "f"⟩]⟩
        [0, 1, -1] [1, 2, 3]) = some results ∧
      results.length = 3 ∧
      (∃ r, results.get? 2 = some r ∧ some r.1 = some (some "t1")) := by
  obtain ⟨results, hres, hlen, hneg, _⟩ :=
    C10_search_negative_index_saturation
      ⟨2, [some "t0", some "t1"],
          [some ⟨1, "p", "c", "f"⟩, some ⟨2, "p", "c", "f"⟩]⟩
      2 3 ⟨rfl, rfl⟩ rfl (by omega) [0, 1, -1] [1, 2, 3] rfl rfl
      (by intro ix hix; fin_cases hix <;> simp)
  obtain ⟨r, hr, hrt, _⟩ := hneg 2 rfl
  exact ⟨results, hres, hlen, r, hr, by rw [hrt]; rfl⟩

/-! ## The query pipeline `RAGPipeline.ask` (`pipeline/rag.py`, lines 90-164)

Providers (embedding, cross-encoder reranker, LLM chat) are modelled as
`Except`-valued functions; `rank_bm25` scoring and the faiss search are
pure collaborator functions.  `ask` threads the conversation history and
records which provider calls were attempted. -/

structure Chunk where
  text : String
  metadata : ChunkMeta
deriving Repr, DecidableEq

structure Message where
  role : String
  content : String
deriving Repr, DecidableEq

/-- The pipeline state `ask` reads: chunks/embeddings (parallel lists),
the conversation history, and the configuration values consumed
(`retrieval.bm25TopK`, `retrieval.vectorTopK`, `reranker.topK`,
`conversation.maxHistory`, `conversation.systemPrompt`). -/
structure RAGState where
  chunks : List Chunk
  embeddings : List (List ℚ)
  history : List Turn
  bm25TopK : ℕ
  vectorTopK : ℕ
  rerankTopK : ℕ
  maxHistory : ℕ
  systemPrompt : String

/-- The collaborator boundary: embedding provider, cross-encoder `predict`,
LLM chat (all fallible), plus the pure `BM25Okapi.get_scores` and faiss
`index.search` collaborators. -/
structure Providers where
  embedSingle : String → Except String (List ℚ)
  crossEncoderPredict : List (String × String) → Except String (List ℚ)
  chat : List Message → Except String String
  bm25GetScores : List String → List ℚ
  faissSearch : List ℚ → ℕ → List Int × List ℚ

/-- Errors `ask` can raise: the distinct empty-corpus `ValueError`
("Cannot query: No documents loaded."), a propagated provider exception, or
a Python `IndexError` from list lookups. -/
inductive AskError where
  | emptyCorpus
  | provider (msg : String)
  | indexError
deriving Repr, DecidableEq

/-- A provider call attempted during `ask`. -/
inductive ProviderCall where
  | embed
  | rerank
  | chatCall
deriving Repr, DecidableEq

/-- Lines 97-106: turn `(idx, score, text)` BM25 triples into candidate
dicts, reading `self.chunks[idx]["metadata"]`. -/
def buildBm25Candidates (chunks : List Chunk) :
    List (ℕ × ℚ × String) → Option (List Candidate)
  | [] => some []
  | r :: rs =>
    match chunks.get? r.1 with
    | some ch =>
      match buildBm25Candidates chunks rs with
      | some rest =>
        some ({ text := r.2.2, metadata := ch.metadata, source := "bm25",
                bm25Score := some r.2.1 } :: rest)
      | none => none
    | none => none

/-- Lines 96-141: BM25 search, vector search (tagging each result with
source `"vector"`), then the merge.  The pipeline's `VectorDB` holds
`self.texts` and the chunk metadata list as its parallel arrays. -/
def mergedCandidatesOf (st : RAGState) (pr : Providers) (query : String)
    (queryEmb : List ℚ) : Except AskError (List Candidate) :=
  let texts := st.chunks.map (fun c => c.text)
  let bm25Results := bm25Search texts pr.bm25GetScores st.bm25TopK query
  match buildBm25Candidates st.chunks bm25Results with
  | none => .error .indexError
  | some bm25Candidates =>
    let out := pr.faissSearch queryEmb st.vectorTopK
    match vdbSearchLoop texts (st.chunks.map (fun c => c.metadata))
        out.1 out.2 with
    | none => .error .indexError
    | some vres =>
      .ok (mergeCandidates bm25Candidates
        (vres.map (fun r =>
          { text := r.1, metadata := r.2.1, source := "vector",
            distance := some r.2.2 })))

/-- Stable insertion of `x` after all earlier entries with score ≥ `x`'s. -/
def insertDesc (x : ℚ × Candidate) :
    List (ℚ × Candidate) → List (ℚ × Candidate)
  | [] => [x]
  | y :: ys => if y.1 < x.1 then x :: y :: ys else y :: insertDesc x ys

/-- Python `sorted(zip(scores, candidates), key=lambda x: x[0],
reverse=True)`: a stable descending sort by score.  Stable sorting under a
total comparison key has a unique result, so this structural insertion sort
coincides with Python's Timsort. -/
def pySortedDesc (l : List (ℚ × Candidate)) : List (ℚ × Candidate) :=
  l.foldl (fun acc x => insertDesc x acc) []

/-- `RerankerService.rerank_candidates` after `predict` returned `scores`
(`core/retrieval/reranker.py`, lines 15-22): sort descending, trim to
`config.reranker.topK`, annotate `rerank_score`. -/
def rerankTrim (topK : ℕ) (scores : List ℚ) (cands : List Candidate) :
    List Candidate :=
  ((pySortedDesc (scores.zip cands)).take topK).map
    (fun p => { p.2 with rerankScore := some p.1 })

/-- `RerankerService.rerank_candidates`: empty input returns `[]` without
calling the cross-encoder; otherwise `predict` is called (the boolean
records that the provider call was made). -/
def rerankStep (pr : Providers) (query : String) (topK : ℕ)
    (cands : List Candidate) : Except String (List Candidate × Bool) :=
  if cands.isEmpty then .ok ([], false)
  else
    match pr.crossEncoderPredict (cands.map (fun c => (query, c.text))) with
    | .error e => .error e
    | .ok scores => .ok (rerankTrim topK scores cands, true)

/-- Lines 145-152: `"Page {page} - {filename}: {text}"` lines joined by
newlines. -/
def contextOf (results : List Candidate) : String :=
  String.intercalate "\n" (results.map (fun r =>
    "Page " ++ toString r.metadata.page ++ " - " ++ r.metadata.filename
      ++ ": " ++ r.text))

/-- `RAGPipeline.build_conversation_context` (lines 170-185). -/
def buildConversationContext (systemPrompt : String) (history : List Turn)
    (documentContext : String) : List Message :=
  [⟨"system", systemPrompt⟩,
   ⟨"user", "Document Context: " ++ documentContext⟩]
    ++ history.flatMap (fun t => [⟨"user", t.user⟩, ⟨"assistant", t.assistant⟩])

/-- Lines 159-162: `"{category}/{filename}"` for the top 3 results. -/
def sourcesOf (results : List Candidate) : String :=
  String.intercalate ", " ((results.take 3).map
    (fun r => r.metadata.category ++ "/" ++ r.metadata.filename))

/-- The message list handed to the LLM (context, history, current query). -/
def askMessages (st : RAGState) (results : List Candidate) (query : String) :
    List Message :=
  buildConversationContext st.systemPrompt st.history (contextOf results)
    ++ [⟨"user", query⟩]

/-- The observable outcome of one `ask` call: the returned answer or raised
error, the conversation history afterwards, and the provider calls
attempted (in order). -/
structure AskResult where
  result : Except AskError String
  history : List Turn
  calls : List ProviderCall
deriving Repr

/-- `RAGPipeline.ask`: guard the empty corpus, embed the query, retrieve
and merge, rerank, chat, and only after a successful chat append the turn
(line 157) and attach the sources footer (lines 159-164). -/
def ask (st : RAGState) (pr : Providers) (query : String) : AskResult :=
  if st.chunks = [] ∨ st.embeddings = [] then
    ⟨.error .emptyCorpus, st.history, []⟩
  else
    match pr.embedSingle query with
    | .error e => ⟨.error (.provider e), st.history, [.embed]⟩
    | .ok queryEmb =>
      match mergedCandidatesOf st pr query queryEmb with
      | .error e => ⟨.error e, st.history, [.embed]⟩
      | .ok merged =>
        match rerankStep pr query st.rerankTopK merged with
        | .error e => ⟨.error (.provider e), st.history, [.embed, .rerank]⟩
        | .ok res =>
          match pr.chat (askMessages st res.1 query) with
          | .error e =>
            ⟨.error (.provider e), st.history,
             [.embed] ++ (if res.2 then [.rerank] else []) ++ [.chatCall]⟩
          | .ok resp =>
            ⟨.ok (resp ++ "\n\n-----Sources: " ++ sourcesOf res.1),
             addToHistory st.maxHistory st.history ⟨query, resp⟩,
             [.embed] ++ (if res.2 then [.rerank] else []) ++ [.chatCall]⟩

/-! ## Claim C7 -/

/-- C7 (confirmed): a query against a pipeline with zero indexed chunks
(or zero embeddings) raises the distinct empty-corpus error before any
provider call is attempted, and the conversation history is unchanged —
in particular still empty when it was empty. -/
theorem C7_empty_corpus_error (st : RAGState) (pr : Providers) (q : String)
    (h : st.chunks = [] ∨ st.embeddings = []) :
    ask st pr q = ⟨.error .emptyCorpus, st.history, []⟩ := by
  unfold ask
  rw [if_pos h]

/-- C7 witness: a freshly constructed empty pipeline; no provider is
called, the error is the empty-corpus one, and the history stays empty. -/
theorem C7_empty_corpus_error_witness :
    ask ⟨[], [], [], 5, 5, 3, 10, "sys"⟩
      ⟨fun _ => .ok [1], fun _ => .ok [], fun _ => .ok "answer",
       fun _ => [], fun _ _ => ([], [])⟩ "What is Python?"
      = ⟨.error .emptyCorpus, [], []⟩ :=
  C7_empty_corpus_error _ _ _ (Or.inl rfl)

/-! ## Claim C8 -/

/-- C8 (confirmed): (i) whenever `ask` raises any error the conversation
turn is not appended — the history afterwards equals the history before;
(ii) an embedding-provider failure propagates as that provider error with
only the embed call attempted; (iii) an LLM chat failure, after successful
embedding, retrieval and reranking, propagates as that provider error and
leaves the history unchanged. -/
theorem C8_provider_error_propagates :
    (∀ (st : RAGState) (pr : Providers) (q : String) (e : AskError),
      (ask st pr q).result = .error e → (ask st pr q).history = st.history) ∧
    (∀ (st : RAGState) (pr : Providers) (q : String) (e : String),
      ¬ (st.chunks = [] ∨ st.embeddings = []) →
      pr.embedSingle q = .error e →
      ask st pr q = ⟨.error (.provider e), st.history, [.embed]⟩) ∧
    (∀ (st : RAGState) (pr : Providers) (q : String) (e : String)
        (queryEmb : List ℚ) (merged : List Candidate)
        (res : List Candidate × Bool),
      ¬ (st.chunks = [] ∨ st.embeddings = []) →
      pr.embedSingle q = .ok queryEmb →
      mergedCandidatesOf st pr q queryEmb = .ok merged →
      rerankStep pr q st.rerankTopK merged = .ok res →
      pr.chat (askMessages st res.1 q) = .error e →
      ask st pr q = ⟨.error (.provider e), st.history,
        [.embed] ++ (if res.2 then [.rerank] else []) ++ [.chatCall]⟩) := by
  refine ⟨?_, ?_, ?_⟩
  · intro st pr q e
    unfold ask
    split
    · intro _; rfl
    · split
      · intro _; rfl
      · split
        · intro _; rfl
        · split
          · intro _; rfl
          · split
            · intro _; rfl
            · intro h; simp at h
  · intro st pr q e h1 h2
    unfold ask
    rw [if_neg h1, h2]
  · intro st pr q e queryEmb merged res h1 h2 h3 h4 h5
    unfold ask
    rw [if_neg h1]
    simp only [h2, h3, h4, h5]

/-- Concrete one-chunk pipeline state with a non-empty prior history. -/
def askExState : RAGState :=
  { chunks := [⟨"Python is a language", ⟨1, "d.pdf", "misc_docs", "d.pdf"⟩⟩]
    embeddings := [[1, 0]]
    history := [⟨"hello", "hi there"⟩]
    bm25TopK := 5, vectorTopK := 5, rerankTopK := 3, maxHistory := 10
    systemPrompt := "You are a helpful assistant." }

/-- Providers whose embedding endpoint is down. -/
def askExProvidersDown : Providers :=
  { embedSingle := fun _ => .error "embedding provider down"
    crossEncoderPredict := fun _ => .ok []
    chat := fun _ => .ok "answer"
    bm25GetScores := fun _ => [1]
    faissSearch := fun _ _ => ([0], [1]) }

/-- C8 witness: with the embedding provider failing on a non-empty corpus,
the error propagates and the prior history survives unchanged. -/
theorem C8_provider_error_propagates_witness :
    ask askExState askExProvidersDown "q"
      = ⟨.error (.provider "embedding provider down"),
         [⟨"hello", "hi there"⟩], [.embed]⟩ :=
  C8_provider_error_propagates.2.1 askExState askExProvidersDown "q"
    "embedding provider down" (by simp [askExState]) rfl

/-! ## Cache metadata and change detection

`DocumentRAGSystem.get_file_changes` (`system.py`, lines 63-115) and
`CacheManager.get_file_changes` (`modules/cache_manager.py`, lines 15-72)
both diff the current corpus against the cached per-file metadata.  A file
on disk is represented by its path and the metadata the code reads from it
(`os.path.getsize`, `os.path.getmtime`, `get_file_hash`); `current` lists
the files found by `rglob` (Python iterates a set of paths; since all
statements below are membership statements, the fixed list order is
immaterial).  Modified times are floats that are only compared for
equality, modelled as rationals. -/

structure FileMeta where
  fileSize : ℕ
  fileModifiedTime : ℚ
  fileHash : String
deriving Repr, DecidableEq

/-- A parsed `file_metadata.json`: path-keyed records (Python dict, keys
unique). -/
abbrev MetaMap := List (String × FileMeta)

/-- Python dict access `cacheMetadata[file]` (first matching key). -/
def lookupMeta : MetaMap → String → Option FileMeta
  | [], _ => none
  | kv :: rest, p => if kv.1 = p then some kv.2 else lookupMeta rest p

def pathsOf (m : MetaMap) : List String := m.map (fun f => f.1)

/-- The three classification lists both implementations produce. -/
structure Changes where
  changedFiles : List String
  newFiles : List String
  removedFiles : List String
deriving Repr, DecidableEq

/-- The classification loop of `DocumentRAGSystem.get_file_changes`
(`system.py`, lines 90-100): removed = cached minus current, new = current
minus cached, changed = present in both with a differing content hash (the
modified time is not consulted). -/
def sysClassify (cacheMetadata curr : MetaMap) : Changes :=
  let removed := (pathsOf cacheMetadata).filter
    (fun p => decide (p ∉ pathsOf curr))
  let newFiles := (curr.filter
    (fun f => decide (f.1 ∉ pathsOf cacheMetadata))).map (fun f => f.1)
  let changed := (curr.filter (fun f =>
    match lookupMeta cacheMetadata f.1 with
    | some cm => decide (cm.fileHash ≠ f.2.fileHash)
    | none => false)).map (fun f => f.1)
  ⟨changed, newFiles, removed⟩

/-- The classification loop of `CacheManager.get_file_changes`
(`modules/cache_manager.py`, lines 45-59): changed additionally requires
the cached modified time to differ (hash checked only when mtime
differs). -/
def cmClassify (cacheMetadata curr : MetaMap) : Changes :=
  let removed := (pathsOf cacheMetadata).filter
    (fun p => decide (p ∉ pathsOf curr))
  let newFiles := (curr.filter
    (fun f => decide (f.1 ∉ pathsOf cacheMetadata))).map (fun f => f.1)
  let changed := (curr.filter (fun f =>
    match lookupMeta cacheMetadata f.1 with
    | some cm =>
      decide (cm.fileModifiedTime ≠ f.2.fileModifiedTime) &&
        decide (cm.fileHash ≠ f.2.fileHash)
    | none => false)).map (fun f => f.1)
  ⟨changed, newFiles, removed⟩

/-- Modelled from the spec's words, for comparison with the code (claim C5):
a file counts as changed iff it is present in both snapshot and current
corpus AND its modified time differs AND its content hash differs. -/
def specChanged (snap curr : MetaMap) (p : String) : Bool :=
  match lookupMeta snap p, lookupMeta curr p with
  | some cm, some fm =>
    decide (cm.fileModifiedTime ≠ fm.fileModifiedTime) &&
      decide (cm.fileHash ≠ fm.fileHash)
  | _, _ => false

theorem lookupMeta_mem (m : MetaMap) (p : String) (fm : FileMeta)
    (h : lookupMeta m p = some fm) : (p, fm) ∈ m := by
  induction m with
  | nil => simp [lookupMeta] at h
  | cons kv rest ih =>
    by_cases hk : kv.1 = p
    · rw [lookupMeta, if_pos hk, Option.some_inj] at h
      have heq : (p, fm) = kv := by
        cases kv
        simp only at hk h
        simp [hk, h]
      rw [heq]
      exact List.mem_cons_self _ _
    · rw [lookupMeta, if_neg hk] at h
      exact List.mem_cons_of_mem _ (ih h)

theorem mem_lookupMeta (m : MetaMap) (p : String) (fm : FileMeta)
    (hnd : (m.map Prod.fst).Nodup) (h : (p, fm) ∈ m) :
    lookupMeta m p = some fm := by
  induction m with
  | nil => simp at h
  | cons kv rest ih =>
    rw [List.map_cons, List.nodup_cons] at hnd
    rcases List.mem_cons.mp h with h1 | h1
    · rw [lookupMeta, if_pos (by rw [← h1]), ← h1]
    · have hk : kv.1 ≠ p := by
        intro hcon
        exact hnd.1 (hcon ▸ List.mem_map_of_mem Prod.fst h1)
      rw [lookupMeta, if_neg hk]
      exact ih hnd.2 h1

theorem mem_pathsOf (m : MetaMap) (p : String) :
    p ∈ pathsOf m ↔ ∃ fm, (p, fm) ∈ m := by
  simp [pathsOf, List.mem_map, Prod.exists]

theorem changedPredSys_iff (snap : MetaMap) (f : String × FileMeta) :
    ((match lookupMeta snap f.1 with
      | some cm => decide (cm.fileHash ≠ f.2.fileHash)
      | none => false) = true) ↔
      ∃ cm, lookupMeta snap f.1 = some cm ∧ cm.fileHash ≠ f.2.fileHash := by
  cases h : lookupMeta snap f.1 <;> simp [h]

theorem changedPredCm_iff (snap : MetaMap) (f : String × FileMeta) :
    ((match lookupMeta snap f.1 with
      | some cm =>
        decide (cm.fileModifiedTime ≠ f.2.fileModifiedTime) &&
          decide (cm.fileHash ≠ f.2.fileHash)
      | none => false) = true) ↔
      ∃ cm, lookupMeta snap f.1 = some cm ∧
        cm.fileModifiedTime ≠ f.2.fileModifiedTime ∧
        cm.fileHash ≠ f.2.fileHash := by
  cases h : lookupMeta snap f.1 <;> simp [h]

theorem sysClassify_new_mem (snap curr : MetaMap) (p : String) :
    p ∈ (sysClassify snap curr).newFiles ↔
      p ∈ pathsOf curr ∧ p ∉ pathsOf snap := by
  simp only [sysClassify, List.mem_map, List.mem_filter, mem_pathsOf,
    decide_eq_true_eq, Prod.exists]
  constructor
  · rintro ⟨a, b, ⟨hm, hn⟩, rfl⟩
    exact ⟨⟨b, hm⟩, hn⟩
  · rintro ⟨⟨fm, hm⟩, hn⟩
    exact ⟨p, fm, ⟨hm, hn⟩, rfl⟩

theorem sysClassify_removed_mem (snap curr : MetaMap) (p : String) :
    p ∈ (sysClassify snap curr).removedFiles ↔
      p ∈ pathsOf snap ∧ p ∉ pathsOf curr := by
  simp [sysClassify, List.mem_filter]

theorem sysClassify_changed_mem (snap curr : MetaMap) (p : String)
    (hcurr : (curr.map Prod.fst).Nodup) :
    p ∈ (sysClassify snap curr).changedFiles ↔
      ∃ cm fm, lookupMeta snap p = some cm ∧ lookupMeta curr p = some fm ∧
        cm.fileHash ≠ fm.fileHash := by
  simp only [sysClassify, List.mem_map, List.mem_filter, Prod.exists]
  constructor
  · rintro ⟨a, b, ⟨hm, hpred⟩, rfl⟩
    obtain ⟨cm, hcm, hne⟩ := (changedPredSys_iff snap (a, b)).mp hpred
    exact ⟨cm, b, hcm, mem_lookupMeta curr a b hcurr hm, hne⟩
  · rintro ⟨cm, fm, hcm, hfm, hne⟩
    exact ⟨p, fm, ⟨lookupMeta_mem curr p fm hfm,
      (changedPredSys_iff snap (p, fm)).mpr ⟨cm, hcm, hne⟩⟩, rfl⟩

theorem cmClassify_changed_mem (snap curr : MetaMap) (p : String)
    (hcurr : (curr.map Prod.fst).Nodup) :
    p ∈ (cmClassify snap curr).changedFiles ↔
      ∃ cm fm, lookupMeta snap p = some cm ∧ lookupMeta curr p = some fm ∧
        cm.fileModifiedTime ≠ fm.fileModifiedTime ∧
        cm.fileHash ≠ fm.fileHash := by
  simp only [cmClassify, List.mem_map, List.mem_filter, Prod.exists]
  constructor
  · rintro ⟨a, b, ⟨hm, hpred⟩, rfl⟩
    obtain ⟨cm, hcm, hne⟩ := (changedPredCm_iff snap (a, b)).mp hpred
    exact ⟨cm, b, hcm, mem_lookupMeta curr a b hcurr hm, hne⟩
  · rintro ⟨cm, fm, hcm, hfm, hne1, hne2⟩
    exact ⟨p, fm, ⟨lookupMeta_mem curr p fm hfm,
      (changedPredCm_iff snap (p, fm)).mpr ⟨cm, hcm, hne1, hne2⟩⟩, rfl⟩

theorem specChanged_iff (snap curr : MetaMap) (p : String) :
    specChanged snap curr p = true ↔
      ∃ cm fm, lookupMeta snap p = some cm ∧ lookupMeta curr p = some fm ∧
        cm.fileModifiedTime ≠ fm.fileModifiedTime ∧
        cm.fileHash ≠ fm.fileHash := by
  cases h1 : lookupMeta snap p <;> cases h2 : lookupMeta curr p <;>
    simp [specChanged, h1, h2]

/-- C5 (amended): added and removed are classified exactly as the claim
states, identically in both implementations; `CacheManager.get_file_changes`
classifies changed exactly per the spec predicate (present in both, mtime
differs AND hash differs); but `DocumentRAGSystem.get_file_changes`
classifies changed iff the content hash differs, never consulting the
modified time.  An unchanged file (present in both with equal mtime and
equal hash) appears in none of the three sets in either implementation. -/
theorem C5_change_detection_amended (snap curr : MetaMap) (p : String)
    (hcurr : (curr.map Prod.fst).Nodup) :
    (p ∈ (sysClassify snap curr).newFiles ↔
      p ∈ pathsOf curr ∧ p ∉ pathsOf snap) ∧
    (p ∈ (sysClassify snap curr).removedFiles ↔
      p ∈ pathsOf snap ∧ p ∉ pathsOf curr) ∧
    (cmClassify snap curr).newFiles = (sysClassify snap curr).newFiles ∧
    (cmClassify snap curr).removedFiles
      = (sysClassify snap curr).removedFiles ∧
    (p ∈ (cmClassify snap curr).changedFiles ↔
      specChanged snap curr p = true) ∧
    (p ∈ (sysClassify snap curr).changedFiles ↔
      ∃ cm fm, lookupMeta snap p = some cm ∧ lookupMeta curr p = some fm ∧
        cm.fileHash ≠ fm.fileHash) ∧
    (∀ cm fm, lookupMeta snap p = some cm → lookupMeta curr p = some fm →
      cm.fileModifiedTime = fm.fileModifiedTime → cm.fileHash = fm.fileHash →
      p ∉ (sysClassify snap curr).changedFiles ∧
      p ∉ (sysClassify snap curr).newFiles ∧
      p ∉ (sysClassify snap curr).removedFiles ∧
      p ∉ (cmClassify snap curr).changedFiles) := by
  refine ⟨sysClassify_new_mem snap curr p, sysClassify_removed_mem snap curr p,
    rfl, rfl, ?_, sysClassify_changed_mem snap curr p hcurr, ?_⟩
  · rw [cmClassify_changed_mem snap curr p hcurr, specChanged_iff]
  · intro cm fm hcm hfm hmt hh
    refine ⟨?_, ?_, ?_, ?_⟩
    · rw [sysClassify_changed_mem snap curr p hcurr]
      rintro ⟨cm2, fm2, hcm2, hfm2, hne⟩
      rw [hcm, Option.some_inj] at hcm2
      rw [hfm, Option.some_inj] at hfm2
      exact hne (hcm2 ▸ hfm2 ▸ hh)
    · rw [sysClassify_new_mem snap curr p]
      rintro ⟨_, hn⟩
      exact hn ((mem_pathsOf snap p).mpr ⟨cm, lookupMeta_mem snap p cm hcm⟩)
    · rw [sysClassify_removed_mem snap curr p]
      rintro ⟨_, hn⟩
      exact hn ((mem_pathsOf curr p).mpr ⟨fm, lookupMeta_mem curr p fm hfm⟩)
    · rw [cmClassify_changed_mem snap curr p hcurr]
      rintro ⟨cm2, fm2, hcm2, hfm2, _, hne⟩
      rw [hcm, Option.some_inj] at hcm2
      rw [hfm, Option.some_inj] at hfm2
      exact hne (hcm2 ▸ hfm2 ▸ hh)

/-- C5 counterexample: a file present in both snapshot and corpus whose
content hash changed while its modified time stayed equal (e.g. restored
from a backup that preserves mtime).  `DocumentRAGSystem.get_file_changes`
marks it changed although the claimed iff (mtime differs AND hash differs)
is false — change detection in `system.py` does not require the mtime to
differ. -/
theorem C5_counterexample_hash_only_change :
    "f" ∈ (sysClassify [("f", ⟨10, 1, "a"⟩)] [("f", ⟨10, 1, "b"⟩)]).changedFiles
      ∧ specChanged [("f", ⟨10, 1, "a"⟩)] [("f", ⟨10, 1, "b"⟩)] "f" = false := by
  constructor
  · decide
  · decide

/-- C5 witness: an unchanged file is classified into none of the three
sets by either implementation. -/
theorem C5_change_detection_amended_witness :
    "f1" ∉ (sysClassify [("f1", ⟨10, 1, "a"⟩)]
        [("f1", ⟨10, 1, "a"⟩)]).changedFiles ∧
    "f1" ∉ (sysClassify [("f1", ⟨10, 1, "a"⟩)]
        [("f1", ⟨10, 1, "a"⟩)]).newFiles ∧
    "f1" ∉ (cmClassify [("f1", ⟨10, 1, "a"⟩)]
        [("f1", ⟨10, 1, "a"⟩)]).changedFiles := by
  obtain ⟨h1, h2, h3, h4⟩ :=
    (C5_change_detection_amended [("f1", ⟨10, 1, "a"⟩)] [("f1", ⟨10, 1, "a"⟩)] "f1"
      (by decide)).2.2.2.2.2.2 ⟨10, 1, "a"⟩ ⟨10, 1, "a"⟩ (by decide)
      (by decide) rfl rfl
  exact ⟨h1, h2, h4⟩

/-! ## `DocumentRAGSystem.initialize` (`system.py`, lines 14-28)

The two cache artifacts (`file_metadata.json`, `embeddings.json`) are each
in one of four states the code distinguishes: absent, present but
zero-length, present but unparseable, or parsed.  `get_file_changes`
returns the invalid result for a missing or zero-length artifact and for a
metadata parse failure (caught by its `except`); a corrupt `embeddings.json`
passes those checks because only its existence and size are inspected.
The loader (`load_pdf`) and batch embedder are ingestion collaborators.
`initialize` dispatches to `RAGPipeline.from_cache` (no file writes, no
chunk embedding, `modules/rag.py` lines 62-100), `incremental_update`
(`system.py` lines 117-181, whose `except` falls back to `data_pipeline`),
or `data_pipeline` (lines 31-53).  The returned number counts texts passed
to the batch embedder (chunk re-embedding calls). -/

/-- State of one cache artifact on disk. -/
inductive PyFile (α : Type) where
  | missing
  | emptyFile
  | corrupt
  | parsed (a : α)
deriving Repr, DecidableEq

/-- A chunk of the persisted snapshot: its text and the fields the
incremental path reads (`chunk["metadata"]["path"]`). -/
structure SnapChunk where
  text : String
  path : String
deriving Repr, DecidableEq

/-- A parsed `embeddings.json`: `{"chunks": [...], "embeddings": [...]}`. -/
structure Snapshot where
  chunks : List SnapChunk
  embeddings : List (List ℚ)
deriving Repr, DecidableEq

/-- The two co-located cache artifacts. -/
structure CacheState where
  fileMetadataJson : PyFile MetaMap
  embeddingsJson : PyFile Snapshot
deriving Repr, DecidableEq

/-- The dict `DocumentRAGSystem.get_file_changes` returns. -/
structure SysFileChanges where
  isValid : Bool
  changedFiles : List String
  newFiles : List String
  removedFiles : List String
deriving Repr, DecidableEq

/-- `DocumentRAGSystem.get_file_changes` (lines 63-115): invalid when either
artifact is missing (line 71) or zero-length (line 79), or when loading
`file_metadata.json` raises (caught at line 108); otherwise classify.
`embeddings.json` is never parsed here, so a corrupt one passes. -/
def sysGetFileChanges (cache : CacheState) (curr : MetaMap) : SysFileChanges :=
  match cache.fileMetadataJson, cache.embeddingsJson with
  | .missing, _ => ⟨false, [], [], []⟩
  | _, .missing => ⟨false, [], [], []⟩
  | .emptyFile, _ => ⟨false, [], [], []⟩
  | _, .emptyFile => ⟨false, [], [], []⟩
  | .corrupt, _ => ⟨false, [], [], []⟩
  | .parsed m, _ =>
    let c := sysClassify m curr
    ⟨true, c.changedFiles, c.newFiles, c.removedFiles⟩

/-- Ingestion collaborators: the PDF loader's chunks per file and the batch
embedding provider. -/
structure IngestEnv where
  loadPdf : String → List SnapChunk
  embedBatch : List String → List (List ℚ)

/-- `DocumentRAGSystem.data_pipeline` (lines 31-53) followed by the
`RAGPipeline` constructor: load every current file, record its metadata,
write `file_metadata.json`, embed all chunk texts (none when there are no
chunks) and write the snapshot.  Returns the new cache artifacts and the
number of chunk texts embedded. -/
def dataPipeline (env : IngestEnv) (curr : MetaMap) : CacheState × ℕ :=
  let allChunks := curr.flatMap (fun f => env.loadPdf f.1)
  let texts := allChunks.map (fun c => c.text)
  if texts = [] then (⟨.parsed curr, .parsed ⟨[], []⟩⟩, 0)
  else (⟨.parsed curr, .parsed ⟨allChunks, env.embedBatch texts⟩⟩, texts.length)

/-- `DocumentRAGSystem.incremental_update` (lines 117-181): parse the
snapshot and the previous metadata (any failure is caught and falls back to
`data_pipeline`), keep chunks of untouched files, reload and embed chunks
of changed/new files (lines 152-159), merge the metadata map, and hand the
updated chunk list to the `RAGPipeline` constructor — which re-embeds every
updated chunk text and rewrites the snapshot. -/
def incrementalUpdate (env : IngestEnv) (cache : CacheState) (curr : MetaMap)
    (ch : Changes) : CacheState × ℕ :=
  match cache.embeddingsJson, cache.fileMetadataJson with
  | .parsed snap, .parsed existingMeta =>
    let filesToUpdate := ch.changedFiles ++ ch.newFiles
    let filesToRemove := ch.removedFiles
    let keptChunks := snap.chunks.filter (fun c =>
      decide (c.path ∉ filesToUpdate) && decide (c.path ∉ filesToRemove))
    let newChunks := (curr.filter
      (fun f => decide (f.1 ∈ filesToUpdate))).flatMap
      (fun f => env.loadPdf f.1)
    let embCallsNew := if newChunks = [] then 0 else newChunks.length
    let updatedChunks := keptChunks ++ newChunks
    let updatedMeta := (curr.filter (fun f => decide (f.1 ∈ filesToUpdate)))
      ++ (curr.filter (fun f => decide (f.1 ∉ filesToUpdate))).map
          (fun f => (f.1, (lookupMeta existingMeta f.1).getD f.2))
    let texts := updatedChunks.map (fun c => c.text)
    if texts = [] then (⟨.parsed updatedMeta, .parsed ⟨[], []⟩⟩, embCallsNew)
    else (⟨.parsed updatedMeta, .parsed ⟨updatedChunks, env.embedBatch texts⟩⟩,
      embCallsNew + texts.length)
  | _, _ => dataPipeline env curr

/-- Which branch of `initialize` ran. -/
inductive InitBranch where
  | fromCache
  | incremental
  | fullRebuild
deriving Repr, DecidableEq

/-- An uncaught cache read failure (`FileNotFoundError` /
`json.JSONDecodeError` escaping `open` + `json.load`). -/
inductive InitError where
  | cacheReadError
deriving Repr, DecidableEq

/-- `CacheManager.load_embeddings_cache` (`modules/cache_manager.py`,
lines 74-77): a bare `open` + `json.load` — raises on a missing, empty or
unparseable file instead of returning an invalid marker. -/
def loadEmbeddingsCache (cache : CacheState) : Except InitError Snapshot :=
  match cache.embeddingsJson with
  | .parsed s => .ok s
  | _ => .error .cacheReadError

/-- `DocumentRAGSystem.initialize` (lines 14-28): valid cache and no
changes → `RAGPipeline.from_cache` (which re-opens and parses
`embeddings.json`, raising on failure, and performs no writes and no chunk
embedding); valid cache with changes → `incremental_update`; invalid cache
→ `data_pipeline`. -/
def systemInit (env : IngestEnv) (cache : CacheState) (curr : MetaMap) :
    Except InitError (InitBranch × CacheState × ℕ) :=
  let ch := sysGetFileChanges cache curr
  if ch.isValid = true ∧ ch.changedFiles = [] ∧ ch.newFiles = [] ∧
      ch.removedFiles = [] then
    match cache.embeddingsJson with
    | .parsed _ => .ok (.fromCache, cache, 0)
    | _ => .error .cacheReadError
  else if ch.isValid = true then
    let r := incrementalUpdate env cache curr
      ⟨ch.changedFiles, ch.newFiles, ch.removedFiles⟩
    .ok (.incremental, r.1, r.2)
  else
    let r := dataPipeline env curr
    .ok (.fullRebuild, r.1, r.2)

/-! ## Claim C4 -/

/-- C4 (confirmed): when every cached file is still present and every
current file is cached with an equal content hash (an unchanged corpus
against a valid cache — both artifacts parse), `initialize` takes the
`from_cache` branch: the persisted artifacts are returned untouched (hence
byte-identical) and zero chunk texts are re-embedded.  (`from_cache` embeds
only the three fixed category descriptions, which are not chunks.) -/
theorem C4_unchanged_corpus_uses_cache (env : IngestEnv) (m : MetaMap)
    (snap : Snapshot) (curr : MetaMap)
    (hnoremove : ∀ p ∈ pathsOf m, p ∈ pathsOf curr)
    (hsame : ∀ f ∈ curr, ∃ cm, lookupMeta m f.1 = some cm ∧
      cm.fileHash = f.2.fileHash) :
    systemInit env ⟨.parsed m, .parsed snap⟩ curr
      = .ok (.fromCache, ⟨.parsed m, .parsed snap⟩, 0) := by
  have hremoved : (pathsOf m).filter (fun p => decide (p ∉ pathsOf curr)) = [] :=
    List.filter_eq_nil_iff.mpr (fun p hp => by simp [hnoremove p hp])
  have hnewf : curr.filter (fun f => decide (f.1 ∉ pathsOf m)) = [] :=
    List.filter_eq_nil_iff.mpr (fun f hf => by
      obtain ⟨cm, hcm, _⟩ := hsame f hf
      simp [(mem_pathsOf m f.1).mpr ⟨cm, lookupMeta_mem m f.1 cm hcm⟩])
  have hchf : curr.filter (fun f =>
      match lookupMeta m f.1 with
      | some cm => decide (cm.fileHash ≠ f.2.fileHash)
      | none => false) = [] :=
    List.filter_eq_nil_iff.mpr (fun f hf => by
      obtain ⟨cm, hcm, hh⟩ := hsame f hf
      simp [hcm, hh])
  have hch : sysGetFileChanges ⟨.parsed m, .parsed snap⟩ curr
      = ⟨true, [], [], []⟩ := by
    simp only [sysGetFileChanges, sysClassify]
    rw [hremoved, hnewf, hchf]
    simp
  unfold systemInit
  rw [hch]
  simp

/-- C4 witness: one cached file, unchanged on disk; `initialize` reuses the
cache verbatim with zero chunk-embedding calls. -/
theorem C4_unchanged_corpus_uses_cache_witness :
    systemInit ⟨fun _ => [], fun ts => ts.map (fun _ => [0])⟩
        ⟨.parsed [("f", ⟨10, 1, "a"⟩)], .parsed ⟨[⟨"some text", "f"⟩], [[1]]⟩⟩
        [("f", ⟨10, 1, "a"⟩)]
      = .ok (.fromCache,
          ⟨.parsed [("f", ⟨10, 1, "a"⟩)],
           .parsed ⟨[⟨"some text", "f"⟩], [[1]]⟩⟩, 0) :=
  C4_unchanged_corpus_uses_cache _ _ _ _ (by decide)
    (by
      intro f hf
      rw [List.mem_singleton.mp hf]
      exact ⟨⟨10, 1, "a"⟩, rfl, rfl⟩)

/-! ## Claim C6 -/

/-- C6 counterexample: with a valid, unchanged `file_metadata.json` but a
corrupt (present, non-empty, unparseable) `embeddings.json`, the validity
checks pass — they never parse `embeddings.json` — so `initialize` calls
`from_cache`, whose `json.load` raises, and the error surfaces to the
caller of `initialize` instead of degrading to a rebuild.  Also,
`CacheManager.load_embeddings_cache` raises on a missing file rather than
returning an invalid result. -/
theorem C6_counterexample_corrupt_embeddings_surfaces :
    systemInit ⟨fun _ => [], fun ts => ts.map (fun _ => [0])⟩
        ⟨.parsed [("f", ⟨10, 1, "a"⟩)], .corrupt⟩ [("f", ⟨10, 1, "a"⟩)]
      = .error .cacheReadError ∧
    loadEmbeddingsCache ⟨.parsed [], .missing⟩ = .error .cacheReadError := by
  constructor
  · rfl
  · rfl

/-- C6 (amended): a missing or zero-length cache artifact, and a parse
failure of `file_metadata.json`, yield the explicit invalid result from
`get_file_changes` without raising, and `initialize` then degrades to a
cold-start full rebuild and succeeds; but a corrupt `embeddings.json`
behind a valid unchanged metadata file escapes `initialize` as an
exception (see the counterexample). -/
theorem C6_cache_failure_degrades_amended :
    (∀ (env : IngestEnv) (cache : CacheState) (curr : MetaMap),
      (sysGetFileChanges cache curr).isValid = false →
      systemInit env cache curr
        = .ok (.fullRebuild, (dataPipeline env curr).1,
            (dataPipeline env curr).2)) ∧
    (∀ (cache : CacheState) (curr : MetaMap),
      cache.fileMetadataJson = .missing ∨ cache.embeddingsJson = .missing ∨
      cache.fileMetadataJson = .emptyFile ∨
      cache.embeddingsJson = .emptyFile ∨
      cache.fileMetadataJson = .corrupt →
      (sysGetFileChanges cache curr).isValid = false) := by
  constructor
  · intro env cache curr h
    unfold systemInit
    simp only [h]
    simp
  · intro cache curr h
    obtain ⟨mf, ef⟩ := cache
    simp only at h
    rcases h with h | h | h | h | h <;> subst h <;>
      first
      | (cases ef <;> rfl)
      | (cases mf <;> rfl)

/-- C6 witness: an entirely missing cache is reported invalid and
`initialize` performs a full (here: empty-corpus) rebuild without
raising. -/
theorem C6_cache_failure_degrades_amended_witness :
    systemInit ⟨fun _ => [], fun ts => ts.map (fun _ => [0])⟩
        ⟨.missing, .missing⟩ []
      = .ok (.fullRebuild, ⟨.parsed [], .parsed ⟨[], []⟩⟩, 0) :=
  C6_cache_failure_degrades_amended.1 _ ⟨.missing, .missing⟩ []
    (C6_cache_failure_degrades_amended.2 ⟨.missing, .missing⟩ [] (Or.inl rfl))
